import Mathlib

/-!
Shallow embedding of `src/vicsek/model.py` (two-dimensional Vicsek model).

NumPy arrays are modelled as Lean lists and machine floats as real numbers
(rationals for the structural parameter-expansion helper, whose properties
are purely about list manipulation).  The NumPy random generator is modelled
as an explicit stream `ℕ → ℝ` of uniform draws in `[0,1)` together with a
cursor into the stream, and `np.random.default_rng seed` as an abstract
family `mk : ℕ → ℕ → ℝ` of seeded streams.
-/

namespace Vicsek

/-- Configuration errors (Python `ValueError` raised by the setters). -/
inductive ConfigError where
  | tooManyValues
  | negativeWeight
deriving DecidableEq, Repr

deriving instance DecidableEq for Except

/-- `expand_to_array` (model.py lines 17-42), acting on an input already
wrapped as a sequence (a bare scalar `x` corresponds to the input `[x]`):
if `len(new) > particles` raise; else build
`array = np.full(particles, new[-1])`, overwrite `array[:len(new)] = new`
(modelled pointwise over the index range), and store `np.flip(array)`. -/
def expandToArray (n : ℕ) (new : List ℚ) : Except ConfigError (List ℚ) :=
  if n < new.length then .error .tooManyValues
  else
    let fill : ℚ := new.getLastD 0
    let full : List ℚ := List.replicate n fill
    let array : List ℚ := (List.range n).map fun i =>
      if hi : i < new.length then new.get ⟨i, hi⟩ else full.getD i fill
    .ok array.reverse

/-- The `weights` setter (model.py lines 178-184): the `expand_to_array`
wrapper first expands the input, then the wrapped setter raises if
`np.any(new < 0)` on the expanded array. -/
def setWeights (n : ℕ) (new : List ℚ) : Except ConfigError (List ℚ) :=
  match expandToArray n new with
  | .error e => .error e
  | .ok array => if array.any (fun x => x < 0) then .error .negativeWeight else .ok array

/-- The mutable state of a `VicsekModel` instance: configuration values,
the four per-particle parameter vectors, positions/headings, the step
counter, the order-parameter trajectory (a dict with increasing integer
keys, modelled as an association list), and the random generator (stream
of uniform `[0,1)` draws plus a cursor). -/
structure ModelState where
  length : ℝ
  density : ℝ
  speed : List ℝ
  radius : List ℝ
  noise : List ℝ
  weights : List ℝ
  positions : List (ℝ × ℝ)
  headings : List ℝ
  currentStep : ℕ
  trajectory : List (ℕ × ℝ)
  rng : ℕ → ℝ
  rngIndex : ℕ

/-- `VicsekModel.particles` (model.py line 212): `int(density * length ** 2)`. -/
noncomputable def particles (m : ModelState) : ℕ :=
  ⌊m.density * m.length ^ 2⌋.toNat

/-- Euclidean (non-wrapped) distance used by `pdist` (model.py line 244). -/
noncomputable def dist2 (p q : ℝ × ℝ) : ℝ :=
  Real.sqrt ((p.1 - q.1) ^ 2 + (p.2 - q.2) ^ 2)

/-- `np.arctan2 y x` on reals, as the argument of the complex number
`x + y*I` (range `(-π, π]`). -/
noncomputable def atan2 (y x : ℝ) : ℝ := Complex.arg ⟨x, y⟩

/-- The adjacency matrix entry `(i, j)` (model.py line 245):
`adjacency_matrix = distance_matrix < self.radius`.  NumPy broadcasting of
the shape-`(N,)` radius vector against the shape-`(N,N)` distance matrix
compares entry `(i, j)` with `radius[j]`, the radius of the COLUMN
particle `j`. -/
noncomputable def adjacent (m : ModelState) (i j : ℕ) : Prop :=
  dist2 (m.positions.getD i (0, 0)) (m.positions.getD j (0, 0)) < m.radius.getD j 0

-- `sum_of_sines` (model.py line 252): row `i` of the masked product
-- `self.weights * np.sin(headings_matrix)` summed over columns `j`, where
-- masked-out (non-adjacent) entries contribute nothing.
open Classical in
noncomputable def sumOfSines (m : ModelState) (i : ℕ) : ℝ :=
  ∑ j ∈ Finset.range (particles m),
    if adjacent m i j then m.weights.getD j 0 * Real.sin (m.headings.getD j 0) else 0

-- `sum_of_cosines` (model.py line 253).
open Classical in
noncomputable def sumOfCosines (m : ModelState) (i : ℕ) : ℝ :=
  ∑ j ∈ Finset.range (particles m),
    if adjacent m i j then m.weights.getD j 0 * Real.cos (m.headings.getD j 0) else 0

/-- The new headings (model.py lines 256-259):
`arctan2(sum_of_sines, sum_of_cosines) + (rng.random(particles) - 0.5) * noise`. -/
noncomputable def newHeadings (m : ModelState) : List ℝ :=
  (List.range (particles m)).map fun i =>
    atan2 (sumOfSines m i) (sumOfCosines m i)
      + (m.rng (m.rngIndex + i) - 1 / 2) * m.noise.getD i 0

/-- `np.mod x L` for real arguments: the floored modulo `x - L * ⌊x / L⌋`. -/
noncomputable def pmod (x L : ℝ) : ℝ := x - L * ⌊x / L⌋

/-- `VicsekModel.step` (model.py lines 241-271): compute the new headings
from the masked weighted circular average plus noise, advance each position
by `speed * (cos heading, sin heading)` using the NEW headings, wrap every
coordinate with `np.mod(positions, length)`, consume `particles` random
draws, and increment the step counter. -/
noncomputable def step (m : ModelState) : ModelState :=
  let n := particles m
  let hs := newHeadings m
  let ps := (List.range n).map fun i =>
    let p := m.positions.getD i (0, 0)
    (pmod (p.1 + m.speed.getD i 0 * Real.cos (hs.getD i 0)) m.length,
     pmod (p.2 + m.speed.getD i 0 * Real.sin (hs.getD i 0)) m.length)
  { m with
    positions := ps
    headings := hs
    currentStep := m.currentStep + 1
    rngIndex := m.rngIndex + n }

/-- `VicsekModel.velocities` (model.py lines 202-207):
`velocities[i] = speed[i] * (cos headings[i], sin headings[i])`. -/
noncomputable def velocities (m : ModelState) : List (ℝ × ℝ) :=
  List.zipWith (fun s h => (s * Real.cos h, s * Real.sin h)) m.speed m.headings

/-- `np.mean` of a one-dimensional array. -/
noncomputable def listMean (l : List ℝ) : ℝ := l.sum / l.length

/-- `VicsekModel.order_parameter` (model.py lines 214-219):
`sqrt(square(velocities.mean(axis=0)).sum()) / speed.mean()`. -/
noncomputable def orderParameter (m : ModelState) : ℝ :=
  Real.sqrt (listMean ((velocities m).map Prod.fst) ^ 2
      + listMean ((velocities m).map Prod.snd) ^ 2)
    / listMean m.speed

/-- `VicsekModel.seed_rng` (model.py lines 236-239): replace the generator
with `np.random.default_rng(seed)`; with no seed a fresh non-deterministic
stream (supplied externally) is installed. -/
noncomputable def seedRng (mk : ℕ → ℕ → ℝ) (seed : Option ℕ) (fresh : ℕ → ℝ)
    (m : ModelState) : ModelState :=
  match seed with
  | some s => { m with rng := mk s, rngIndex := 0 }
  | none => { m with rng := fresh, rngIndex := 0 }

/-- `VicsekModel.init_state` (model.py lines 273-294): seed the generator
(with the fixed seed `123456` iff `reproducible`), draw positions as
`rng.random((particles, 2)) * length` (row-major draw order), draw headings
as `rng.random(particles) * 2π`, reset the step counter to 0 and the
trajectory to `{0: order_parameter}`. -/
noncomputable def initState (mk : ℕ → ℕ → ℝ) (fresh : ℕ → ℝ) (reproducible : Bool)
    (m : ModelState) : ModelState :=
  let m1 := if reproducible then seedRng mk (some 123456) fresh m
            else seedRng mk none fresh m
  let n := particles m1
  let ps := (List.range n).map fun i =>
    (m1.rng (2 * i) * m1.length, m1.rng (2 * i + 1) * m1.length)
  let hs := (List.range n).map fun i => m1.rng (2 * n + i) * (2 * Real.pi)
  let m2 := { m1 with positions := ps, headings := hs, currentStep := 0,
                      rngIndex := 3 * n }
  { m2 with trajectory := [(0, orderParameter m2)] }

/-- A state with every heading shifted by the constant `c` (used to state
rotation invariance of the order parameter). -/
noncomputable def rotateHeadings (m : ModelState) (c : ℝ) : ModelState :=
  { m with headings := m.headings.map (· + c) }

/-- The trajectory-recording conditional inside `evolve` (model.py lines
319-320): after a tick, if `current_step % interval == 0`, append
`trajectory[current_step] = order_parameter`. -/
noncomputable def recordTrajectory (interval : ℕ) (m : ModelState) : ModelState :=
  if m.currentStep % interval = 0 then
    { m with trajectory := m.trajectory ++ [(m.currentStep, orderParameter m)] }
  else m

/-- The tracking loop of `evolve` (model.py lines 316-322).  The second
component counts calls to `pbar.update()`: one per iteration when a
progress bar is present. -/
noncomputable def evolveTracking (interval : ℕ) (hasPbar : Bool) :
    ℕ → ModelState × ℕ → ModelState × ℕ
  | 0, mc => mc
  | steps + 1, mc =>
      let m := recordTrajectory interval (step mc.1)
      evolveTracking interval hasPbar steps (m, if hasPbar then mc.2 + 1 else mc.2)

/-- Iterated stepping: the non-tracking loop body of `evolve`
(model.py lines 325-326). -/
noncomputable def stepN : ℕ → ModelState → ModelState
  | 0, m => m
  | k + 1, m => stepN k (step m)

/-- `VicsekModel.evolve` (model.py lines 296-328).  Returns the final state
together with the number of `pbar.update()` calls.  In the tracking branch
`pbar.update()` is called inside the loop (once per tick); in the
non-tracking branch the source calls `pbar.update()` ONCE, after the loop. -/
noncomputable def evolveModel (steps : ℕ) (track : Bool) (interval : ℕ)
    (hasPbar : Bool) (m : ModelState) : ModelState × ℕ :=
  if track then evolveTracking interval hasPbar steps (m, 0)
  else (stepN steps m, if hasPbar then 1 else 0)

/-- `np.var(ddof=1)`: the unbiased sample variance
`Σ (x - mean)² / (n - 1)`.  The divisor `n - 1` vanishes for a single
sample, where the computation is a division by zero; that failure is
modelled as `none`. -/
noncomputable def sampleVariance (xs : List ℝ) : Option ℝ :=
  if xs.length = 1 then none
  else some ((xs.map (fun x => (x - listMean xs) ^ 2)).sum / ((xs.length : ℝ) - 1))

/-- The replica loop of `evolve_ensemble` (model.py lines 359-364): for each
replica, `init_state(reproducible=False)` with a fresh stream, evolve
`steps` ticks without trajectory tracking (progress bar supplied), and
record the terminal order parameter. -/
noncomputable def ensembleSamples (mk : ℕ → ℕ → ℝ) (freshs : ℕ → ℕ → ℝ)
    (steps : ℕ) : ℕ → ModelState → List ℝ
  | 0, _ => []
  | k + 1, m =>
      let m1 := (evolveModel steps false 10 true (initState mk (freshs k) false m)).1
      orderParameter m1 :: ensembleSamples mk freshs steps k m1

/-- `VicsekModel.evolve_ensemble` (model.py lines 330-367): collect the
terminal order parameters of `ensemble_size` replicas and return their
mean and `var(ddof=1)`. -/
noncomputable def evolveEnsemble (mk : ℕ → ℕ → ℝ) (freshs : ℕ → ℕ → ℝ)
    (steps size : ℕ) (m : ModelState) : ℝ × Option ℝ :=
  let os := ensembleSamples mk freshs steps size m
  (listMean os, sampleVariance os)

/-- A concrete one-particle state used to instantiate theorems. -/
noncomputable def m0 : ModelState where
  length := 1
  density := 1
  speed := [1]
  radius := [1]
  noise := [0]
  weights := [1]
  positions := [(0, 0)]
  headings := [0]
  currentStep := 0
  trajectory := [(0, 1)]
  rng := fun _ => 0
  rngIndex := 0

/-- A concrete two-particle state with distinct interaction radii:
`positions = [(0,0), (1,0)]`, `radius = [2, 1/2]`. -/
noncomputable def cexC1 : ModelState where
  length := 10
  density := 1 / 50
  speed := [1, 1]
  radius := [2, 1 / 2]
  noise := [0, 0]
  weights := [1, 1]
  positions := [(0, 0), (1, 0)]
  headings := [0, 0]
  currentStep := 0
  trajectory := [(0, 1)]
  rng := fun _ => 0
  rngIndex := 0

/-- A concrete two-particle state with unequal speeds `[0, 1]` and unequal
headings `[0, π/2]`. -/
noncomputable def cexC9 : ModelState where
  length := 10
  density := 1 / 50
  speed := [0, 1]
  radius := [1, 1]
  noise := [0, 0]
  weights := [1, 1]
  positions := [(0, 0), (1, 0)]
  headings := [0, Real.pi / 2]
  currentStep := 0
  trajectory := [(0, 1)]
  rng := fun _ => 0
  rngIndex := 0

/-! ### Helper lemmas -/

lemma getD_replicate (n i : ℕ) (a : ℚ) : (List.replicate n a).getD i a = a := by
  induction n generalizing i with
  | zero => rfl
  | succ k ih =>
    cases i with
    | zero => rfl
    | succ j => rw [List.replicate_succ, List.getD_cons_succ]; exact ih j

lemma getLastD_mem (v : List ℚ) (h : v ≠ []) : v.getLastD 0 ∈ v := by
  rw [List.getLastD_eq_getLast?, List.getLast?_eq_getLast v h, Option.getD_some]
  exact List.getLast_mem h

lemma expandToArray_ok (n : ℕ) (v : List ℚ) (h : v.length ≤ n) :
    expandToArray n v
      = .ok ((v ++ List.replicate (n - v.length) (v.getLastD 0)).reverse) := by
  have hlt : ¬ n < v.length := by omega
  unfold expandToArray
  rw [if_neg hlt]
  simp only []
  congr 2
  apply List.ext_getElem
  · simp only [List.length_map, List.length_range, List.length_append,
      List.length_replicate]
    omega
  · intro i h1 h2
    simp only [List.getElem_map, List.getElem_range]
    by_cases hi : i < v.length
    · rw [dif_pos hi, List.getElem_append_left hi]
      simp [List.get_eq_getElem]
    · rw [dif_neg hi, List.getElem_append_right (by omega), List.getElem_replicate,
        getD_replicate]

/-! ### Claim theorems -/

/-- C2: for every target length `n` and nonempty input `v` with
`v.length ≤ n`, parameter-vector construction returns the reverse of `v`
right-padded with its last element up to length `n`; concretely
`expandToArray 6 [4,2,3,1] = ok [1,1,1,3,2,4]`. -/
theorem c2_expand_pad_reverse (n : ℕ) (v : List ℚ) (_h1 : 1 ≤ v.length)
    (h2 : v.length ≤ n) :
    expandToArray n v
      = .ok ((v ++ List.replicate (n - v.length) (v.getLastD 0)).reverse)
  ∧ expandToArray 6 [4, 2, 3, 1] = .ok [1, 1, 1, 3, 2, 4] :=
  ⟨expandToArray_ok n v h2, by decide⟩

/-- Witness for C2 at `n = 6`, `v = [4,2,3,1]`. -/
theorem c2_expand_pad_reverse_witness :
    1 ≤ ([4, 2, 3, 1] : List ℚ).length ∧ ([4, 2, 3, 1] : List ℚ).length ≤ 6
  ∧ expandToArray 6 [4, 2, 3, 1] = .ok [1, 1, 1, 3, 2, 4] :=
  ⟨by decide, by decide,
    ((c2_expand_pad_reverse 6 [4, 2, 3, 1] (by decide) (by decide)).1).trans (by decide)⟩

/-- C3: on a nonempty input sequence, parameter-vector construction errors
exactly when the sequence is longer than the particle count, and the
weights setter errors exactly when the sequence is too long or some
supplied weight is negative; nothing else is rejected. -/
theorem c3_config_errors (n : ℕ) (v : List ℚ) (hv : 1 ≤ v.length) :
    ((∃ e, expandToArray n v = .error e) ↔ n < v.length)
  ∧ ((∃ e, setWeights n v = .error e) ↔ (n < v.length ∨ ∃ x ∈ v, x < 0)) := by
  have hne : v ≠ [] := by
    cases v
    · simp at hv
    · simp
  constructor
  · by_cases h : n < v.length
    · simp [expandToArray, h]
    · rw [expandToArray_ok n v (by omega)]
      simp [h]
  · by_cases h : n < v.length
    · simp [setWeights, expandToArray, h]
    · have h2 : v.length ≤ n := by omega
      have hok := expandToArray_ok n v h2
      have hany : ((v ++ List.replicate (n - v.length) (v.getLastD 0)).reverse.any
          fun x => decide (x < 0)) = true ↔ ∃ x ∈ v, x < 0 := by
        rw [List.any_eq_true]
        constructor
        · rintro ⟨x, hx, hx0⟩
          rw [List.mem_reverse, List.mem_append] at hx
          rcases hx with hx | hx
          · exact ⟨x, hx, by simpa using hx0⟩
          · have hx' := List.eq_of_mem_replicate hx
            subst hx'
            exact ⟨_, getLastD_mem v hne, by simpa using hx0⟩
        · rintro ⟨x, hx, hx0⟩
          refine ⟨x, ?_, by simpa using hx0⟩
          rw [List.mem_reverse, List.mem_append]
          exact Or.inl hx
      by_cases hneg : ∃ x ∈ v, x < 0
      · simp only [setWeights, hok]
        rw [if_pos (hany.mpr hneg)]
        simp [h, hneg]
      · simp only [setWeights, hok]
        rw [if_neg (fun hc => hneg (hany.mp hc))]
        simp [h, hneg]

/-- Witness for C3 at `n = 6`, `v = [4,2,3,1]`: no error is raised. -/
theorem c3_config_errors_witness :
    1 ≤ ([4, 2, 3, 1] : List ℚ).length
  ∧ ¬(∃ e, expandToArray 6 [4, 2, 3, 1] = .error e)
  ∧ ¬(∃ e, setWeights 6 [4, 2, 3, 1] = .error e) := by
  have h := c3_config_errors 6 [4, 2, 3, 1] (by decide)
  refine ⟨by decide, ?_, ?_⟩
  · rw [h.1]; decide
  · rw [h.2]; decide

lemma pmod_nonneg_lt (x L : ℝ) (hL : 0 < L) : 0 ≤ pmod x L ∧ pmod x L < L := by
  have hL0 : L ≠ 0 := ne_of_gt hL
  have hfr : pmod x L = L * Int.fract (x / L) := by
    unfold pmod Int.fract
    field_simp
  constructor
  · rw [hfr]
    exact mul_nonneg hL.le (Int.fract_nonneg _)
  · rw [hfr]
    calc L * Int.fract (x / L) < L * 1 :=
          mul_lt_mul_of_pos_left (Int.fract_lt_one _) hL
      _ = L := mul_one L

lemma initState_true_spec (mk : ℕ → ℕ → ℝ) (fresh : ℕ → ℝ) (m : ModelState) :
    (initState mk fresh true m).rng = mk 123456
  ∧ (initState mk fresh true m).positions
      = (List.range (⌊m.density * m.length ^ 2⌋.toNat)).map
          (fun i => (mk 123456 (2 * i) * m.length, mk 123456 (2 * i + 1) * m.length))
  ∧ (initState mk fresh true m).headings
      = (List.range (⌊m.density * m.length ^ 2⌋.toNat)).map
          (fun i => mk 123456 (2 * ⌊m.density * m.length ^ 2⌋.toNat + i) * (2 * Real.pi)) :=
  ⟨rfl, rfl, rfl⟩

lemma evolveTracking_count (interval k : ℕ) (mc : ModelState × ℕ) :
    (evolveTracking interval true k mc).2 = mc.2 + k := by
  induction k generalizing mc with
  | zero => rfl
  | succ n ih =>
    simp only [evolveTracking]
    rw [ih]
    simp only [if_true]
    omega

/-- C6: after any single `step` over a state with positive box length,
every coordinate of every position lies in `[0, length)` on both axes, and
`current_step` increases by exactly 1. -/
theorem c6_step_wrap_and_count (m : ModelState) (hL : 0 < m.length) :
    (∀ p ∈ (step m).positions, (0 ≤ p.1 ∧ p.1 < m.length) ∧ (0 ≤ p.2 ∧ p.2 < m.length))
  ∧ (step m).currentStep = m.currentStep + 1 := by
  constructor
  · intro p hp
    simp only [step, List.mem_map, List.mem_range] at hp
    obtain ⟨i, hi, rfl⟩ := hp
    exact ⟨pmod_nonneg_lt _ _ hL, pmod_nonneg_lt _ _ hL⟩
  · rfl

/-- Witness for C6 at the concrete one-particle state `m0`. -/
theorem c6_step_wrap_and_count_witness :
    0 < m0.length
  ∧ ((∀ p ∈ (step m0).positions,
        (0 ≤ p.1 ∧ p.1 < m0.length) ∧ (0 ≤ p.2 ∧ p.2 < m0.length))
     ∧ (step m0).currentStep = m0.currentStep + 1) :=
  ⟨by norm_num [m0], c6_step_wrap_and_count m0 (by norm_num [m0])⟩

/-- C7: immediately after `init_state` (either seeding mode), the step
counter is 0 and the trajectory holds exactly the single entry mapping
step 0 to the order parameter of the freshly initialized state. -/
theorem c7_init_trajectory (mk : ℕ → ℕ → ℝ) (fresh : ℕ → ℝ) (b : Bool)
    (m : ModelState) :
    (initState mk fresh b m).currentStep = 0
  ∧ (initState mk fresh b m).trajectory
      = [(0, orderParameter (initState mk fresh b m))] := by
  cases b <;> exact ⟨rfl, rfl⟩

/-- C8: `init_state(reproducible=True)` always installs the stream seeded
with the fixed value 123456, so two runs from any two states sharing the
same configuration (`length`, `density`) produce identical positions and
identical headings, whatever the prior random state. -/
theorem c8_reproducible_determinism (mk : ℕ → ℕ → ℝ) (f1 f2 : ℕ → ℝ)
    (m1 m2 : ModelState) (hl : m1.length = m2.length)
    (hd : m1.density = m2.density) :
    (initState mk f1 true m1).rng = mk 123456
  ∧ (initState mk f1 true m1).positions = (initState mk f2 true m2).positions
  ∧ (initState mk f1 true m1).headings = (initState mk f2 true m2).headings := by
  obtain ⟨hr1, hp1, hh1⟩ := initState_true_spec mk f1 m1
  obtain ⟨hr2, hp2, hh2⟩ := initState_true_spec mk f2 m2
  refine ⟨hr1, ?_, ?_⟩
  · rw [hp1, hp2, hl, hd]
  · rw [hh1, hh2, hl, hd]

/-- Witness for C8: two states sharing the configuration of `m0` but with
different prior random streams initialize identically. -/
theorem c8_reproducible_determinism_witness :
    m0.length = (rotateHeadings m0 1).length
  ∧ m0.density = (rotateHeadings m0 1).density
  ∧ ((initState (fun _ _ => 0) (fun _ => 0) true m0).rng = (fun _ _ => (0 : ℝ)) 123456
     ∧ (initState (fun _ _ => 0) (fun _ => 0) true m0).positions
         = (initState (fun _ _ => 0) (fun _ => 1) true (rotateHeadings m0 1)).positions
     ∧ (initState (fun _ _ => 0) (fun _ => 0) true m0).headings
         = (initState (fun _ _ => 0) (fun _ => 1) true (rotateHeadings m0 1)).headings) :=
  ⟨rfl, rfl,
    c8_reproducible_determinism (fun _ _ => 0) (fun _ => 0) (fun _ => 1)
      m0 (rotateHeadings m0 1) rfl rfl⟩

/-- C4: running the ensemble procedure with `ensemble_size = 1` makes the
`n - 1` divisor of the sample-variance estimator zero; the resulting
division-by-zero failure is returned unguarded to the caller. -/
theorem c4_ensemble_size_one (mk freshs : ℕ → ℕ → ℝ) (steps : ℕ)
    (m : ModelState) :
    (evolveEnsemble mk freshs steps 1 m).2 = none := rfl

/-- C5: with a progress sink supplied, the non-tracking branch of `evolve`
notifies the sink exactly ONCE in total (here at the failing input
`steps = 2`), while the tracking branch notifies once per completed tick. -/
theorem c5_progress_calls :
    (evolveModel 2 false 10 true m0).2 = 1
  ∧ ∀ (steps interval : ℕ) (m : ModelState),
      (evolveModel steps true interval true m).2 = steps := by
  refine ⟨rfl, fun steps interval m => ?_⟩
  show (evolveTracking interval true steps (m, 0)).2 = steps
  rw [evolveTracking_count]
  simp

/-- C10: a single `step` leaves the parameter vectors, the configuration
values and the trajectory unchanged; only positions, headings, the step
counter (and the consumed random stream) change. -/
theorem c10_step_frame (m : ModelState) :
    (step m).speed = m.speed ∧ (step m).radius = m.radius
  ∧ (step m).noise = m.noise ∧ (step m).weights = m.weights
  ∧ (step m).length = m.length ∧ (step m).density = m.density
  ∧ (step m).trajectory = m.trajectory :=
  ⟨rfl, rfl, rfl, rfl, rfl, rfl, rfl⟩

lemma dist2_self (p : ℝ × ℝ) : dist2 p p = 0 := by
  simp [dist2]

/-- C1 (amended): in the heading update of `step`, particle `j` contributes
to particle `i`'s weighted circular average iff the Euclidean distance
between them is strictly less than `radius[j]` — the interaction radius of
the COLUMN particle `j` (NumPy broadcasting of `distance_matrix <
self.radius` compares column-wise); the relation is asymmetric in general
and includes `i` itself whenever `radius[i] > 0`. -/
theorem c1_neighbor_rule (m : ModelState) (i j : ℕ)
    (hr : 0 < m.radius.getD i 0) :
    (adjacent m i j ↔
      dist2 (m.positions.getD i (0, 0)) (m.positions.getD j (0, 0))
        < m.radius.getD j 0)
  ∧ adjacent m i i := by
  constructor
  · exact Iff.rfl
  · show dist2 _ _ < _
    rw [dist2_self]
    exact hr

/-- Witness for C1 (amended) at the concrete state `cexC1`, `i = 0`, `j = 1`. -/
theorem c1_neighbor_rule_witness :
    0 < cexC1.radius.getD 0 0
  ∧ ((adjacent cexC1 0 1 ↔
       dist2 (cexC1.positions.getD 0 (0, 0)) (cexC1.positions.getD 1 (0, 0))
         < cexC1.radius.getD 1 0)
     ∧ adjacent cexC1 0 0) :=
  ⟨by show (0 : ℝ) < 2; norm_num,
   c1_neighbor_rule cexC1 0 1 (by show (0 : ℝ) < 2; norm_num)⟩

/-- C1 counterexample: in the state `cexC1` (positions `(0,0)` and `(1,0)`,
radii `[2, 1/2]`), the distance from particle 0 to particle 1 is `1`, which
is strictly less than `radius[0] = 2`, yet particle 1 is NOT a neighbor of
particle 0 (the code compares against `radius[1] = 1/2`).  So the claimed
row-radius rule is false. -/
theorem c1_row_radius_false :
    ¬ (adjacent cexC1 0 1 ↔
        dist2 (cexC1.positions.getD 0 (0, 0)) (cexC1.positions.getD 1 (0, 0))
          < cexC1.radius.getD 0 0) := by
  have hd : dist2 (cexC1.positions.getD 0 (0, 0)) (cexC1.positions.getD 1 (0, 0)) = 1 := by
    show Real.sqrt (((0 : ℝ) - 1) ^ 2 + ((0 : ℝ) - 0) ^ 2) = 1
    have h1 : ((0 : ℝ) - 1) ^ 2 + ((0 : ℝ) - 0) ^ 2 = 1 := by norm_num
    rw [h1, Real.sqrt_one]
  intro hiff
  have hadj : adjacent cexC1 0 1 := by
    apply hiff.mpr
    rw [hd]
    show (1 : ℝ) < 2
    norm_num
  have hlt : dist2 (cexC1.positions.getD 0 (0, 0)) (cexC1.positions.getD 1 (0, 0))
      < cexC1.radius.getD 1 0 := hadj
  rw [hd] at hlt
  have h12 : cexC1.radius.getD 1 0 = 1 / 2 := rfl
  rw [h12] at hlt
  norm_num at hlt

lemma zipWith_rot_cos (ss hs : List ℝ) (c : ℝ) :
    (List.zipWith (fun s h => s * Real.cos (h + c)) ss hs).sum
      = Real.cos c * (List.zipWith (fun s h => s * Real.cos h) ss hs).sum
        - Real.sin c * (List.zipWith (fun s h => s * Real.sin h) ss hs).sum := by
  induction ss generalizing hs with
  | nil => simp
  | cons s t ih =>
    cases hs with
    | nil => simp
    | cons h u =>
      rw [List.zipWith_cons_cons, List.zipWith_cons_cons, List.zipWith_cons_cons,
        List.sum_cons, List.sum_cons, List.sum_cons, ih, Real.cos_add]
      ring

lemma zipWith_rot_sin (ss hs : List ℝ) (c : ℝ) :
    (List.zipWith (fun s h => s * Real.sin (h + c)) ss hs).sum
      = Real.sin c * (List.zipWith (fun s h => s * Real.cos h) ss hs).sum
        + Real.cos c * (List.zipWith (fun s h => s * Real.sin h) ss hs).sum := by
  induction ss generalizing hs with
  | nil => simp
  | cons s t ih =>
    cases hs with
    | nil => simp
    | cons h u =>
      rw [List.zipWith_cons_cons, List.zipWith_cons_cons, List.zipWith_cons_cons,
        List.sum_cons, List.sum_cons, List.sum_cons, ih, Real.sin_add]
      ring

lemma orderParameter_rotate (m : ModelState) (c : ℝ) :
    orderParameter (rotateHeadings m c) = orderParameter m := by
  have hfst : (velocities (rotateHeadings m c)).map Prod.fst
      = List.zipWith (fun s h => s * Real.cos (h + c)) m.speed m.headings := by
    show ((List.zipWith _ m.speed (m.headings.map (· + c))).map Prod.fst) = _
    rw [List.zipWith_map_right, List.map_zipWith]
  have hsnd : (velocities (rotateHeadings m c)).map Prod.snd
      = List.zipWith (fun s h => s * Real.sin (h + c)) m.speed m.headings := by
    show ((List.zipWith _ m.speed (m.headings.map (· + c))).map Prod.snd) = _
    rw [List.zipWith_map_right, List.map_zipWith]
  have hfst0 : (velocities m).map Prod.fst
      = List.zipWith (fun s h => s * Real.cos h) m.speed m.headings := by
    unfold velocities
    rw [List.map_zipWith]
  have hsnd0 : (velocities m).map Prod.snd
      = List.zipWith (fun s h => s * Real.sin h) m.speed m.headings := by
    unfold velocities
    rw [List.map_zipWith]
  have hsp : (rotateHeadings m c).speed = m.speed := rfl
  unfold orderParameter listMean
  rw [hfst, hsnd, hfst0, hsnd0, hsp, zipWith_rot_cos, zipWith_rot_sin]
  simp only [List.length_zipWith]
  set A := (List.zipWith (fun s h => s * Real.cos h) m.speed m.headings).sum with hA
  set B := (List.zipWith (fun s h => s * Real.sin h) m.speed m.headings).sum with hB
  set n : ℝ := ((m.speed.length ⊓ m.headings.length : ℕ) : ℝ) with hn
  have harg : ((Real.cos c * A - Real.sin c * B) / n) ^ 2
      + ((Real.sin c * A + Real.cos c * B) / n) ^ 2
      = (A / n) ^ 2 + (B / n) ^ 2 := by
    rw [div_pow, div_pow, div_pow, div_pow, div_add_div_same, div_add_div_same]
    congr 1
    linear_combination (A ^ 2 + B ^ 2) * Real.sin_sq_add_cos_sq c
  rw [harg]

lemma zipWith_replicate_both {α β γ : Type} (n : ℕ) (a : α) (b : β) (f : α → β → γ) :
    List.zipWith f (List.replicate n a) (List.replicate n b)
      = List.replicate n (f a b) := by
  induction n with
  | zero => rfl
  | succ k ih => simp [List.replicate_succ, ih]

lemma orderParameter_aligned (n : ℕ) (s θ : ℝ) (hn : 1 ≤ n) (hs : 0 < s)
    (m : ModelState) (hsp : m.speed = List.replicate n s)
    (hh : m.headings = List.replicate n θ) :
    orderParameter m = 1 := by
  have hn0 : (n : ℝ) ≠ 0 := Nat.cast_ne_zero.mpr (by omega)
  have hv : velocities m = List.replicate n (s * Real.cos θ, s * Real.sin θ) := by
    rw [velocities, hsp, hh, zipWith_replicate_both]
  unfold orderParameter listMean
  rw [hv, hsp]
  simp only [List.map_replicate, List.sum_replicate, List.length_replicate,
    nsmul_eq_mul]
  rw [mul_div_cancel_left₀ _ hn0, mul_div_cancel_left₀ _ hn0,
    mul_div_cancel_left₀ _ hn0]
  have harg : (s * Real.cos θ) ^ 2 + (s * Real.sin θ) ^ 2 = s ^ 2 := by
    linear_combination s ^ 2 * Real.sin_sq_add_cos_sq θ
  rw [harg, Real.sqrt_sq hs.le, div_self (ne_of_gt hs)]

lemma zipWith_replicate_left {α β γ : Type} (a : α) (l : List β) (f : α → β → γ) :
    List.zipWith f (List.replicate l.length a) l = l.map (f a) := by
  induction l with
  | nil => rfl
  | cons h t ih => simp [List.replicate_succ, ih]

lemma sqrt_sq_add_sq_eq_abs (x y : ℝ) :
    Real.sqrt (x ^ 2 + y ^ 2) = Complex.abs ⟨x, y⟩ := by
  rw [Complex.abs_apply, Complex.normSq_mk]
  congr 1
  ring

lemma triangle2 (a b x y : ℝ) :
    Real.sqrt ((a + x) ^ 2 + (b + y) ^ 2)
      ≤ Real.sqrt (a ^ 2 + b ^ 2) + Real.sqrt (x ^ 2 + y ^ 2) := by
  rw [sqrt_sq_add_sq_eq_abs, sqrt_sq_add_sq_eq_abs, sqrt_sq_add_sq_eq_abs]
  have hmk : (⟨a + x, b + y⟩ : ℂ) = ⟨a, b⟩ + ⟨x, y⟩ := by
    apply Complex.ext <;> simp
  rw [hmk]
  exact Complex.abs.add_le _ _

lemma sum_unit_bound (l : List ℝ) :
    Real.sqrt (((l.map Real.cos).sum) ^ 2 + ((l.map Real.sin).sum) ^ 2)
      ≤ (l.length : ℝ) := by
  induction l with
  | nil => norm_num
  | cons h t ih =>
    simp only [List.map_cons, List.sum_cons, List.length_cons]
    calc Real.sqrt ((Real.cos h + (t.map Real.cos).sum) ^ 2
            + (Real.sin h + (t.map Real.sin).sum) ^ 2)
        ≤ Real.sqrt (Real.cos h ^ 2 + Real.sin h ^ 2)
            + Real.sqrt (((t.map Real.cos).sum) ^ 2 + ((t.map Real.sin).sum) ^ 2) :=
          triangle2 _ _ _ _
      _ ≤ 1 + (t.length : ℝ) := by
          rw [Real.cos_sq_add_sin_sq, Real.sqrt_one]
          linarith [ih]
      _ = ((t.length + 1 : ℕ) : ℝ) := by push_cast; ring

lemma orderParameter_uniform (n : ℕ) (s : ℝ) (hn : 1 ≤ n) (hs : 0 < s)
    (m : ModelState) (hsp : m.speed = List.replicate n s)
    (hh : m.headings.length = n) :
    0 ≤ orderParameter m ∧ orderParameter m ≤ 1 := by
  subst hh
  have hlen : 0 < (m.headings.length : ℝ) := by
    have : 0 < m.headings.length := by omega
    exact_mod_cast this
  have hv : velocities m
      = m.headings.map (fun h => (s * Real.cos h, s * Real.sin h)) := by
    rw [velocities, hsp, zipWith_replicate_left]
  have hfst : (velocities m).map Prod.fst
      = m.headings.map (fun h => s * Real.cos h) := by
    rw [hv, List.map_map]
    rfl
  have hsnd : (velocities m).map Prod.snd
      = m.headings.map (fun h => s * Real.sin h) := by
    rw [hv, List.map_map]
    rfl
  unfold orderParameter listMean
  rw [hfst, hsnd, hsp]
  simp only [List.sum_map_mul_left, List.length_map, List.sum_replicate,
    List.length_replicate, nsmul_eq_mul]
  rw [mul_div_cancel_left₀ _ (ne_of_gt hlen)]
  set C := (m.headings.map Real.cos).sum with hC
  set S := (m.headings.map Real.sin).sum with hS
  set L : ℝ := (m.headings.length : ℝ) with hL
  constructor
  · exact div_nonneg (Real.sqrt_nonneg _) hs.le
  · rw [div_le_one hs]
    have harg : (s * C / L) ^ 2 + (s * S / L) ^ 2
        = (s / L) ^ 2 * (C ^ 2 + S ^ 2) := by ring
    rw [harg, Real.sqrt_mul (by positivity), Real.sqrt_sq (by positivity)]
    have hb : Real.sqrt (C ^ 2 + S ^ 2) ≤ L := sum_unit_bound m.headings
    calc s / L * Real.sqrt (C ^ 2 + S ^ 2) ≤ s / L * L :=
          mul_le_mul_of_nonneg_left hb (by positivity)
      _ = s := by field_simp

/-- C9 (amended): the order parameter is exactly invariant under a global
rotation of all headings; it equals 1 IF all headings are identical and all
speeds are equal to a common positive value; and for uniform positive
speeds it lies in `[0, 1]`.  (The "exactly when" of the claim fails: the
converse direction is refuted by `c9_one_without_alignment`.) -/
theorem c9_order_parameter (m : ModelState) (c s θ : ℝ) (n : ℕ)
    (hn : 1 ≤ n) (hs : 0 < s) :
    orderParameter (rotateHeadings m c) = orderParameter m
  ∧ (m.speed = List.replicate n s → m.headings = List.replicate n θ →
      orderParameter m = 1)
  ∧ (m.speed = List.replicate n s → m.headings.length = n →
      0 ≤ orderParameter m ∧ orderParameter m ≤ 1) :=
  ⟨orderParameter_rotate m c,
   fun hsp hh => orderParameter_aligned n s θ hn hs m hsp hh,
   fun hsp hh => orderParameter_uniform n s hn hs m hsp hh⟩

/-- Witness for C9 (amended) at the concrete state `m0` with `n = 1`,
`s = 1`, `θ = 0`, rotation constant `c = 1`. -/
theorem c9_order_parameter_witness :
    1 ≤ 1 ∧ (0 : ℝ) < 1
  ∧ (orderParameter (rotateHeadings m0 1) = orderParameter m0
     ∧ (m0.speed = List.replicate 1 (1 : ℝ) → m0.headings = List.replicate 1 (0 : ℝ) →
         orderParameter m0 = 1)
     ∧ (m0.speed = List.replicate 1 (1 : ℝ) → m0.headings.length = 1 →
         0 ≤ orderParameter m0 ∧ orderParameter m0 ≤ 1)) :=
  ⟨le_refl 1, by norm_num, c9_order_parameter m0 1 1 0 1 (le_refl 1) (by norm_num)⟩

/-- C9 counterexample: in the state `cexC9` (speeds `[0, 1]`, headings
`[0, π/2]`) the order parameter equals 1 although the headings are not all
identical and the speeds are not all equal — so "equals 1 exactly when all
headings are identical and all speeds are equal" is false. -/
theorem c9_one_without_alignment :
    orderParameter cexC9 = 1
  ∧ cexC9.headings.getD 0 0 ≠ cexC9.headings.getD 1 0
  ∧ cexC9.speed.getD 0 0 ≠ cexC9.speed.getD 1 0 := by
  refine ⟨?_, ?_, ?_⟩
  · have hv : velocities cexC9 = [((0 : ℝ), (0 : ℝ)), ((0 : ℝ), (1 : ℝ))] := by
      show List.zipWith _ [(0 : ℝ), 1] [(0 : ℝ), Real.pi / 2] = _
      simp [Real.cos_pi_div_two, Real.sin_pi_div_two]
    have hsp : cexC9.speed = [(0 : ℝ), 1] := rfl
    unfold orderParameter listMean
    rw [hv, hsp]
    simp only [List.map_cons, List.map_nil, List.sum_cons, List.sum_nil,
      List.length_cons, List.length_nil]
    norm_num
    rw [show (4 : ℝ) = 2 ^ 2 by norm_num, Real.sqrt_sq (by norm_num)]
    norm_num
  · have h0 : cexC9.headings.getD 0 0 = 0 := rfl
    have h1 : cexC9.headings.getD 1 0 = Real.pi / 2 := rfl
    rw [h0, h1]
    have : (0 : ℝ) < Real.pi / 2 := by positivity
    exact ne_of_lt this
  · have h0 : cexC9.speed.getD 0 0 = 0 := rfl
    have h1 : cexC9.speed.getD 1 0 = 1 := rfl
    rw [h0, h1]
    norm_num

end Vicsek
